import Mathlib

/-!
Verification of the wowdbdefs-rs data model and resolver.

Shallow embedding of `src/types.rs`, `src/error.rs` and the location
utility of `src/lib.rs` / `src/error.rs`.  Rust machine integers (u8,
u16, u32, usize) are modelled as `Nat`; `HashMap<String, Column>` is
modelled as an association list with insert-replaces semantics;
`BTreeSet` is modelled as a `List` (only membership and iteration are
used by the code under study); Rust `&str` in the location utility is
modelled as a list of bytes (`List Nat`), with the newline byte 10.
A Rust panic is modelled as the `none` case of an outer `Option` layer.
-/

namespace WowDbd

/-- Model of `Version` from `src/types.rs`: major/minor/patch are `u8`, build is
`u16`; modelled with `Nat` fields. -/
structure Version where
  major : Nat
  minor : Nat
  patch : Nat
  build : Nat
deriving DecidableEq, Repr

/-- The `Ord for Version` implementation from `src/types.rs`
(`Version::cmp`): compare major, then minor, then patch, then build. -/
def versionCmp (a b : Version) : Ordering :=
  match compare a.major b.major with
  | Ordering.lt => Ordering.lt
  | Ordering.gt => Ordering.gt
  | Ordering.eq =>
    match compare a.minor b.minor with
    | Ordering.lt => Ordering.lt
    | Ordering.gt => Ordering.gt
    | Ordering.eq =>
      match compare a.patch b.patch with
      | Ordering.lt => Ordering.lt
      | Ordering.gt => Ordering.gt
      | Ordering.eq => compare a.build b.build

/-- Rust `<=` on `Version`, derived from `Version::cmp` via the
`PartialOrd` impl (`a <= b` iff `cmp a b` is not `Greater`). -/
def versionLe (a b : Version) : Bool :=
  match versionCmp a b with
  | Ordering.gt => false
  | _ => true

/-- Rust `>=` on `Version` (`a >= b` iff `cmp a b` is not `Less`). -/
def versionGe (a b : Version) : Bool :=
  match versionCmp a b with
  | Ordering.lt => false
  | _ => true

/-- Model of `VersionRange` from `src/types.rs`.  The Rust field names are
`from` and `to`; `from` is a Lean keyword, so the fields are named
`fromV` and `toV` here. -/
structure VersionRange where
  fromV : Version
  toV : Version
deriving DecidableEq, Repr

/-- Model of `VersionRange::within_range` from `src/types.rs`:
`self.from <= *version && self.to >= *version`. -/
def within_range (r : VersionRange) (version : Version) : Bool :=
  versionLe r.fromV version && versionGe r.toV version

/-- The lexicographic order on (major, minor, patch, build), stated
mathematically (this is the spec-side order that `Version::cmp` is
claimed to implement). -/
def lexLe (a b : Version) : Prop :=
  a.major < b.major ∨
    (a.major = b.major ∧
      (a.minor < b.minor ∨
        (a.minor = b.minor ∧
          (a.patch < b.patch ∨
            (a.patch = b.patch ∧ a.build ≤ b.build)))))

instance (a b : Version) : Decidable (lexLe a b) := by
  unfold lexLe
  infer_instance

theorem natCompare_self (n : Nat) : compare n n = Ordering.eq :=
  Nat.compare_eq_eq.mpr rfl

theorem versionLe_iff_lexLe (a b : Version) : versionLe a b = true ↔ lexLe a b := by
  unfold versionLe versionCmp lexLe
  rcases Nat.lt_trichotomy a.major b.major with h1 | h1 | h1
  · simp [Nat.compare_eq_lt.mpr h1, Nat.ne_of_lt h1, h1]
  · rcases Nat.lt_trichotomy a.minor b.minor with h2 | h2 | h2
    · simp [natCompare_self, Nat.compare_eq_eq.mpr h1, Nat.compare_eq_lt.mpr h2, h1, h2,
        Nat.ne_of_lt h2, Nat.lt_irrefl]
    · rcases Nat.lt_trichotomy a.patch b.patch with h3 | h3 | h3
      · simp [natCompare_self, Nat.compare_eq_eq.mpr h1, Nat.compare_eq_eq.mpr h2,
          Nat.compare_eq_lt.mpr h3, h1, h2, h3, Nat.ne_of_lt h3, Nat.lt_irrefl]
      · rcases Nat.lt_trichotomy a.build b.build with h4 | h4 | h4
        · simp [natCompare_self, Nat.compare_eq_eq.mpr h1, Nat.compare_eq_eq.mpr h2,
            Nat.compare_eq_eq.mpr h3, Nat.compare_eq_lt.mpr h4, h1, h2, h3, Nat.le_of_lt h4,
            Nat.lt_irrefl]
        · simp [natCompare_self, Nat.compare_eq_eq.mpr h1, Nat.compare_eq_eq.mpr h2,
            Nat.compare_eq_eq.mpr h3, Nat.compare_eq_eq.mpr h4, h1, h2, h3, Nat.le_of_eq h4,
            Nat.lt_irrefl]
        · simp [natCompare_self, Nat.compare_eq_eq.mpr h1, Nat.compare_eq_eq.mpr h2,
            Nat.compare_eq_eq.mpr h3, Nat.compare_eq_gt.mpr h4, h1, h2, h3,
            Nat.not_le_of_lt h4, Nat.lt_irrefl, Nat.lt_asymm h4]
      · simp [natCompare_self, Nat.compare_eq_eq.mpr h1, Nat.compare_eq_eq.mpr h2,
          Nat.compare_eq_gt.mpr h3, h1, h2, Nat.lt_asymm h3, Nat.ne_of_gt h3, Nat.lt_irrefl]
    · simp [natCompare_self, Nat.compare_eq_eq.mpr h1, Nat.compare_eq_gt.mpr h2, h1,
        Nat.lt_asymm h2, Nat.ne_of_gt h2, Nat.lt_irrefl]
  · simp [Nat.compare_eq_gt.mpr h1, Nat.lt_asymm h1, Nat.ne_of_gt h1]

theorem versionGe_iff_lexLe (a b : Version) : versionGe a b = true ↔ lexLe b a := by
  rw [← versionLe_iff_lexLe]
  unfold versionGe versionLe versionCmp
  rcases Nat.lt_trichotomy a.major b.major with h1 | h1 | h1
  · simp [Nat.compare_eq_lt.mpr h1, Nat.compare_eq_gt.mpr h1]
  · have h1s : compare a.major b.major = Ordering.eq := Nat.compare_eq_eq.mpr h1
    have h1s2 : compare b.major a.major = Ordering.eq := Nat.compare_eq_eq.mpr h1.symm
    rcases Nat.lt_trichotomy a.minor b.minor with h2 | h2 | h2
    · simp [h1s, h1s2, Nat.compare_eq_lt.mpr h2, Nat.compare_eq_gt.mpr h2]
    · have h2s : compare a.minor b.minor = Ordering.eq := Nat.compare_eq_eq.mpr h2
      have h2s2 : compare b.minor a.minor = Ordering.eq := Nat.compare_eq_eq.mpr h2.symm
      rcases Nat.lt_trichotomy a.patch b.patch with h3 | h3 | h3
      · simp [h1s, h1s2, h2s, h2s2, Nat.compare_eq_lt.mpr h3, Nat.compare_eq_gt.mpr h3]
      · have h3s : compare a.patch b.patch = Ordering.eq := Nat.compare_eq_eq.mpr h3
        have h3s2 : compare b.patch a.patch = Ordering.eq := Nat.compare_eq_eq.mpr h3.symm
        rcases Nat.lt_trichotomy a.build b.build with h4 | h4 | h4
        · simp [h1s, h1s2, h2s, h2s2, h3s, h3s2, Nat.compare_eq_lt.mpr h4,
            Nat.compare_eq_gt.mpr h4]
        · simp [h1s, h1s2, h2s, h2s2, h3s, h3s2, Nat.compare_eq_eq.mpr h4,
            Nat.compare_eq_eq.mpr h4.symm]
        · simp [h1s, h1s2, h2s, h2s2, h3s, h3s2, Nat.compare_eq_gt.mpr h4,
            Nat.compare_eq_lt.mpr h4]
      · simp [h1s, h1s2, h2s, h2s2, Nat.compare_eq_gt.mpr h3, Nat.compare_eq_lt.mpr h3]
    · simp [h1s, h1s2, Nat.compare_eq_gt.mpr h2, Nat.compare_eq_lt.mpr h2]
  · simp [Nat.compare_eq_gt.mpr h1, Nat.compare_eq_lt.mpr h1]

/-- The strict lexicographic order on versions (spec side). -/
def lexLt (a b : Version) : Prop :=
  lexLe a b ∧ a ≠ b

instance (a b : Version) : Decidable (lexLt a b) := by
  unfold lexLt
  infer_instance

theorem lexLe_total (a b : Version) : lexLe a b ∨ lexLe b a := by
  unfold lexLe
  rcases Nat.lt_trichotomy a.major b.major with h1 | h1 | h1
  · exact Or.inl (Or.inl h1)
  · rcases Nat.lt_trichotomy a.minor b.minor with h2 | h2 | h2
    · exact Or.inl (Or.inr ⟨h1, Or.inl h2⟩)
    · rcases Nat.lt_trichotomy a.patch b.patch with h3 | h3 | h3
      · exact Or.inl (Or.inr ⟨h1, Or.inr ⟨h2, Or.inl h3⟩⟩)
      · rcases Nat.le_total a.build b.build with h4 | h4
        · exact Or.inl (Or.inr ⟨h1, Or.inr ⟨h2, Or.inr ⟨h3, h4⟩⟩⟩)
        · exact Or.inr (Or.inr ⟨h1.symm, Or.inr ⟨h2.symm, Or.inr ⟨h3.symm, h4⟩⟩⟩)
      · exact Or.inr (Or.inr ⟨h1.symm, Or.inr ⟨h2.symm, Or.inl h3⟩⟩)
    · exact Or.inr (Or.inr ⟨h1.symm, Or.inl h2⟩)
  · exact Or.inr (Or.inl h1)

theorem lexLe_trans {a b c : Version} (hab : lexLe a b) (hbc : lexLe b c) : lexLe a c := by
  unfold lexLe at hab hbc ⊢
  rcases a with ⟨a1, a2, a3, a4⟩
  rcases b with ⟨b1, b2, b3, b4⟩
  rcases c with ⟨c1, c2, c3, c4⟩
  simp only at hab hbc ⊢
  omega

theorem lexLe_antisymm {a b : Version} (hab : lexLe a b) (hba : lexLe b a) : a = b := by
  unfold lexLe at hab hba
  rcases a with ⟨a1, a2, a3, a4⟩
  rcases b with ⟨b1, b2, b3, b4⟩
  simp only [Version.mk.injEq]
  rcases hab with h | ⟨h1, h⟩ <;> rcases hba with g | ⟨g1, g⟩ <;> simp_all <;> omega

/-- C5 main theorem (see below), stated over the embedded
`within_range`:  membership is exactly `fromV <= v <= toV` in the
lexicographic order, and an inverted range contains nothing. -/
theorem within_range_iff (r : VersionRange) (v : Version) :
    within_range r v = true ↔ (lexLe r.fromV v ∧ lexLe v r.toV) := by
  unfold within_range
  rw [Bool.and_eq_true, versionLe_iff_lexLe, versionGe_iff_lexLe]

/-- Claim **C5**: for every `VersionRange {from, to}` and version `v`,
`within_range` holds iff `from <= v <= to` in the lexicographic
(major, minor, patch, build) order; both endpoints of
`(1,0,0,0)-(2,0,0,0)` are contained while `(2,0,0,1)` is not; and an
inverted range (`from > to`) contains no version at all. -/
theorem c5_within_range_spec :
    (∀ (r : VersionRange) (v : Version),
      within_range r v = true ↔ (lexLe r.fromV v ∧ lexLe v r.toV)) ∧
    (within_range ⟨⟨1, 0, 0, 0⟩, ⟨2, 0, 0, 0⟩⟩ ⟨1, 0, 0, 0⟩ = true ∧
     within_range ⟨⟨1, 0, 0, 0⟩, ⟨2, 0, 0, 0⟩⟩ ⟨2, 0, 0, 0⟩ = true ∧
     within_range ⟨⟨1, 0, 0, 0⟩, ⟨2, 0, 0, 0⟩⟩ ⟨2, 0, 0, 1⟩ = false) ∧
    (∀ (r : VersionRange), lexLt r.toV r.fromV →
      ∀ (v : Version), within_range r v = false) := by
  refine ⟨within_range_iff, ⟨by decide, by decide, by decide⟩, ?_⟩
  intro r hinv v
  by_contra h
  have hv : within_range r v = true := by
    cases hw : within_range r v
    · exact absurd hw h
    · rfl
  rcases (within_range_iff r v).mp hv with ⟨h1, h2⟩
  have : r.fromV = r.toV := lexLe_antisymm (lexLe_trans h1 h2) hinv.1
  exact hinv.2 (this ▸ rfl)

/-- Witness for C5: the inverted range `(2,0,0,0)-(1,0,0,0)` contains
nothing, here checked at `(1,5,0,0)`. -/
theorem c5_within_range_spec_witness :
    within_range ⟨⟨2, 0, 0, 0⟩, ⟨1, 0, 0, 0⟩⟩ ⟨1, 5, 0, 0⟩ = false :=
  c5_within_range_spec.2.2 ⟨⟨2, 0, 0, 0⟩, ⟨1, 0, 0, 0⟩⟩ (by decide) ⟨1, 5, 0, 0⟩

/-- The raw storage-kind enum from `src/types.rs`.  Its Rust name is
`Type`, which is reserved in Lean, so it is called `RawType` here. -/
inductive RawType where
  | Int
  | Float
  | LocString
  | String
deriving DecidableEq, Repr

/-- Model of `ForeignKey` from `src/types.rs`: referenced database and column. -/
structure ForeignKey where
  database : String
  column : String
deriving DecidableEq, Repr

/-- Model of `Column` from `src/types.rs`. -/
structure Column where
  name : String
  ty : RawType
  foreign_key : Option ForeignKey
  verified : Bool
  comment : Option String
deriving DecidableEq, Repr

/-- Model of `Layout` from `src/types.rs`: a `u32`, modelled as `Nat`. -/
structure Layout where
  inner : Nat
deriving DecidableEq, Repr

/-- Model of `Entry` from `src/types.rs`.  `integer_width` is `Option<u8>` and
`array_size` is `Option<usize>`, both modelled with `Nat`. -/
structure Entry where
  name : String
  comment : Option String
  integer_width : Option Nat
  array_size : Option Nat
  unsigned : Bool
  primary_key : Bool
  inline : Bool
  relation : Bool
deriving DecidableEq, Repr

/-- Model of `Definition` from `src/types.rs`.  The `BTreeSet<Version>` and
`BTreeSet<Layout>` fields are modelled as lists: the code under study
only iterates them and tests membership. -/
structure Definition where
  versions : List Version
  version_ranges : List VersionRange
  layouts : List Layout
  entries : List Entry
deriving DecidableEq, Repr

/-- Model of `DbdFile` from `src/types.rs`; the `HashMap<String, Column>` is
modelled as an association list, observed only through `mapGet` and
`mapInsert` below (lookup and insert-replaces, the exact observable
behaviour of the map API the code uses). -/
structure DbdFile where
  name : String
  columns : List (String × Column)
  definitions : List Definition
deriving DecidableEq, Repr

/-- Model of `HashMap::get` on the association-list model. -/
def mapGet (columns : List (String × Column)) (k : String) : Option Column :=
  match columns with
  | [] => none
  | (k2, v) :: rest => if k2 = k then some v else mapGet rest k

/-- Model of `HashMap::insert` on the association-list model: replaces the value
at an existing key, otherwise appends. -/
def mapInsert (k : String) (v : Column) (columns : List (String × Column)) :
    List (String × Column) :=
  match columns with
  | [] => [(k, v)]
  | (k2, v2) :: rest =>
    if k2 = k then (k, v) :: rest else (k2, v2) :: mapInsert k v rest

/-- Model of `compare_versions` from `src/types.rs`: true when some range of
`version_ranges` contains `version`, or — failing that — when
`versions` contains `version` exactly.  The two Rust `for` loops with
early `return true` are `List.any` here. -/
def compare_versions (version : Version) (version_ranges : List VersionRange)
    (versions : List Version) : Bool :=
  version_ranges.any (fun b => within_range b version) ||
    versions.any (fun b => b == version)

/-- Model of `DbdFile::specific_version` from `src/types.rs`: the first
definition, in declaration order, accepted by `compare_versions`. -/
def DbdFile.specific_version (file : DbdFile) (version : Version) : Option Definition :=
  file.definitions.find? (fun a => compare_versions version a.version_ranges a.versions)

/-- Model of `DbdFile::find_column` from `src/types.rs`. -/
def DbdFile.find_column (file : DbdFile) (entry : Entry) : Option Column :=
  mapGet file.columns entry.name

/-- Model of `DbdFile::add_column` from `src/types.rs`:
`self.columns.insert(column.name.clone(), column)`. -/
def DbdFile.add_column (file : DbdFile) (column : Column) : DbdFile :=
  { file with columns := mapInsert column.name column file.columns }

/-- Model of `DbdFile::add_database` from `src/types.rs`. -/
def DbdFile.add_database (file : DbdFile) (definition : Definition) : DbdFile :=
  { file with definitions := file.definitions ++ [definition] }

theorem mapGet_mapInsert_self (k : String) (v : Column)
    (columns : List (String × Column)) : mapGet (mapInsert k v columns) k = some v := by
  induction columns with
  | nil => simp [mapInsert, mapGet]
  | cons hd tl ih =>
    rcases hd with ⟨k2, v2⟩
    by_cases h : k2 = k
    · simp [mapInsert, mapGet, h]
    · simp [mapInsert, mapGet, h, ih]

theorem mapGet_mapInsert_other (k k3 : String) (v : Column)
    (columns : List (String × Column)) (hne : k ≠ k3) :
    mapGet (mapInsert k v columns) k3 = mapGet columns k3 := by
  induction columns with
  | nil => simp [mapInsert, mapGet, hne]
  | cons hd tl ih =>
    rcases hd with ⟨k2, v2⟩
    by_cases h : k2 = k
    · subst h
      have : ¬ k2 = k3 := hne
      simp [mapInsert, mapGet, this]
    · by_cases h2 : k2 = k3
      · have h3 : ¬ (k3 = k) := fun hh => hne hh.symm
        simp [mapInsert, mapGet, h, h2, h3]
      · simp [mapInsert, mapGet, h, h2, ih]

/-- Claim **C7**: registering a column under a name that is already
registered overwrites the earlier column: after two `add_column` calls
with the same name, `find_column` on that name yields exactly the later
column (so none of the earlier declaration's attributes remain
observable), and lookups of other names are unaffected. -/
theorem c7_add_column_overwrites (file : DbdFile) (c1 c2 : Column) (entry : Entry)
    (hname : c1.name = c2.name) (hentry : entry.name = c2.name) :
    ((file.add_column c1).add_column c2).find_column entry = some c2 ∧
    (∀ entry2 : Entry, entry2.name ≠ c2.name →
      ((file.add_column c1).add_column c2).find_column entry2 = file.find_column entry2) := by
  constructor
  · unfold DbdFile.find_column DbdFile.add_column
    simp only [hentry]
    exact mapGet_mapInsert_self c2.name c2 _
  · intro entry2 hne
    unfold DbdFile.find_column DbdFile.add_column
    simp only
    rw [mapGet_mapInsert_other _ _ _ _ (fun h => hne h.symm)]
    rw [hname, mapGet_mapInsert_other _ _ _ _ (fun h => hne h.symm)]

/-- Witness for C7 at a concrete file and pair of same-named columns:
the second registration of name "ID" wins. -/
theorem c7_add_column_overwrites_witness :
    ((DbdFile.add_column
        (DbdFile.add_column ⟨"Map.dbd", [], []⟩
          ⟨"ID", RawType.Float, none, false, none⟩)
        ⟨"ID", RawType.Int, none, true, some "c"⟩).find_column
      ⟨"ID", none, some 32, none, false, true, true, false⟩) =
      some ⟨"ID", RawType.Int, none, true, some "c"⟩ :=
  (c7_add_column_overwrites ⟨"Map.dbd", [], []⟩
    ⟨"ID", RawType.Float, none, false, none⟩
    ⟨"ID", RawType.Int, none, true, some "c"⟩
    ⟨"ID", none, some 32, none, false, true, true, false⟩ rfl rfl).1

/-- Model of `SpecificConversionError`: the conversion-error enum used by
`to_specific` / `into_specific` (named `ConversionError` in
`src/error.rs`; `src/types.rs` refers to it as
`SpecificConversionError`).  It carries no line/column location. -/
inductive SpecificConversionError where
  | InvalidIntegerWidth (width : Nat)
  | NoIntegerWidth
  | ColumnNotFound (name : String)
  | LocStringAsForeignKey
  | StringAsForeignKey
  | FloatAsForeignKey
deriving DecidableEq, Repr

/-- Model of `SpecificType` from `src/types.rs`: the resolved recursive type. -/
inductive SpecificType where
  | Int8
  | Int16
  | Int32
  | Int64
  | UInt8
  | UInt16
  | UInt32
  | UInt64
  | Float
  | LocString
  | String
  | ForeignKey (ty : SpecificType) (key : ForeignKey)
  | Array (ty : SpecificType) (width : Nat)
deriving DecidableEq, Repr

/-- Model of `SpecificEntry` from `src/types.rs`. -/
structure SpecificEntry where
  name : String
  ty : SpecificType
  comment : Option String
  column_comment : Option String
  verified : Bool
  primary_key : Bool
  inline : Bool
  relation : Bool
deriving DecidableEq, Repr

/-- Model of `SpecificDefinition` from `src/types.rs`. -/
structure SpecificDefinition where
  versions : List Version
  version_ranges : List VersionRange
  layouts : List Layout
  entries : List SpecificEntry
deriving DecidableEq, Repr

/-- Model of `SpecificDbdFile` from `src/types.rs`. -/
structure SpecificDbdFile where
  name : String
  definitions : List SpecificDefinition
deriving DecidableEq, Repr

/-- Model of `SpecificDbdFile::specific_version` from `src/types.rs`: textually
the same search as `DbdFile::specific_version`, on the resolved tier. -/
def SpecificDbdFile.specific_version (file : SpecificDbdFile) (version : Version) :
    Option SpecificDefinition :=
  file.definitions.find? (fun a => compare_versions version a.version_ranges a.versions)

/-- The first stage of the per-entry `match column.ty` in
`Definition::to_specific` (`src/types.rs` lines 301-328): map the
column's storage kind, validating the entry's integer width for `Int`
columns. -/
def resolveBaseType (colTy : RawType) (entry : Entry) :
    Except SpecificConversionError SpecificType :=
  match colTy with
  | RawType.Int =>
    match entry.integer_width with
    | none => Except.error SpecificConversionError.NoIntegerWidth
    | some v =>
      match entry.unsigned with
      | true =>
        match v with
        | 8 => Except.ok SpecificType.UInt8
        | 16 => Except.ok SpecificType.UInt16
        | 32 => Except.ok SpecificType.UInt32
        | 64 => Except.ok SpecificType.UInt64
        | v => Except.error (SpecificConversionError.InvalidIntegerWidth v)
      | false =>
        match v with
        | 8 => Except.ok SpecificType.Int8
        | 16 => Except.ok SpecificType.Int16
        | 32 => Except.ok SpecificType.Int32
        | 64 => Except.ok SpecificType.Int64
        | v => Except.error (SpecificConversionError.InvalidIntegerWidth v)
  | RawType.Float => Except.ok SpecificType.Float
  | RawType.LocString => Except.ok SpecificType.LocString
  | RawType.String => Except.ok SpecificType.String

/-- The foreign-key wrapping `match ty` of `Definition::to_specific`
(`src/types.rs` lines 330-357).  The `unreachable!` arm for an
already-`ForeignKey` type is modelled as the outer `none` (a panic). -/
def applyForeignKey (ty : SpecificType) (key : ForeignKey) :
    Option (Except SpecificConversionError SpecificType) :=
  match ty with
  | SpecificType.Array _ _ | SpecificType.Int8 | SpecificType.Int16
  | SpecificType.Int32 | SpecificType.Int64 | SpecificType.UInt8
  | SpecificType.UInt16 | SpecificType.UInt32 | SpecificType.UInt64 =>
    some (Except.ok (SpecificType.ForeignKey ty key))
  | SpecificType.Float => some (Except.error SpecificConversionError.FloatAsForeignKey)
  | SpecificType.LocString =>
    some (Except.error SpecificConversionError.LocStringAsForeignKey)
  | SpecificType.String => some (Except.error SpecificConversionError.StringAsForeignKey)
  | SpecificType.ForeignKey _ _ => none

/-- The array wrapping step of `Definition::to_specific`
(`src/types.rs` lines 359-364). -/
def applyArray (ty : SpecificType) (array_size : Option Nat) : SpecificType :=
  match array_size with
  | none => ty
  | some width => SpecificType.Array ty width

/-- The `SpecificEntry` literal built at the end of each loop iteration
of `Definition::to_specific` (`src/types.rs` lines 366-375). -/
def mkSpecificEntry (column : Column) (entry : Entry) (ty : SpecificType) : SpecificEntry :=
  { name := entry.name
    ty := ty
    comment := entry.comment
    column_comment := column.comment
    verified := column.verified
    primary_key := entry.primary_key
    inline := entry.inline
    relation := entry.relation }

/-- One iteration of the entry loop of `Definition::to_specific`
(`src/types.rs` lines 294-376): column lookup, base-type resolution,
optional foreign-key wrapping, optional array wrapping.  Outer `none`
models the `unreachable!` panic. -/
def entryToSpecific (columns : List (String × Column)) (entry : Entry) :
    Option (Except SpecificConversionError SpecificEntry) :=
  match mapGet columns entry.name with
  | none => some (Except.error (SpecificConversionError.ColumnNotFound entry.name))
  | some column =>
    match resolveBaseType column.ty entry with
    | Except.error e => some (Except.error e)
    | Except.ok ty0 =>
      match column.foreign_key with
      | none =>
        some (Except.ok (mkSpecificEntry column entry (applyArray ty0 entry.array_size)))
      | some foreign_key =>
        match applyForeignKey ty0 foreign_key with
        | none => none
        | some (Except.error e) => some (Except.error e)
        | some (Except.ok ty1) =>
          some (Except.ok (mkSpecificEntry column entry (applyArray ty1 entry.array_size)))

/-- The entry loop of `Definition::to_specific`, with the `?` operator
made explicit: the first entry error aborts the whole list. -/
def resolveEntries (columns : List (String × Column)) :
    List Entry → Option (Except SpecificConversionError (List SpecificEntry))
  | [] => some (Except.ok [])
  | entry :: rest =>
    match entryToSpecific columns entry with
    | none => none
    | some (Except.error e) => some (Except.error e)
    | some (Except.ok se) =>
      match resolveEntries columns rest with
      | none => none
      | some (Except.error e) => some (Except.error e)
      | some (Except.ok ses) => some (Except.ok (se :: ses))

/-- Model of `Definition::to_specific` from `src/types.rs`. -/
def Definition.to_specific (self : Definition) (columns : List (String × Column)) :
    Option (Except SpecificConversionError SpecificDefinition) :=
  match resolveEntries columns self.entries with
  | none => none
  | some (Except.error e) => some (Except.error e)
  | some (Except.ok entries) =>
    some (Except.ok
      { versions := self.versions
        version_ranges := self.version_ranges
        layouts := self.layouts
        entries := entries })

/-- The definition loop of `DbdFile::into_specific`, with the `?`
operator made explicit. -/
def resolveDefinitions (columns : List (String × Column)) :
    List Definition → Option (Except SpecificConversionError (List SpecificDefinition))
  | [] => some (Except.ok [])
  | def0 :: rest =>
    match def0.to_specific columns with
    | none => none
    | some (Except.error e) => some (Except.error e)
    | some (Except.ok sd) =>
      match resolveDefinitions columns rest with
      | none => none
      | some (Except.error e) => some (Except.error e)
      | some (Except.ok sds) => some (Except.ok (sd :: sds))

/-- Model of `DbdFile::into_specific` from `src/types.rs`. -/
def DbdFile.into_specific (self : DbdFile) :
    Option (Except SpecificConversionError SpecificDbdFile) :=
  match resolveDefinitions self.columns self.definitions with
  | none => none
  | some (Except.error e) => some (Except.error e)
  | some (Except.ok definitions) =>
    some (Except.ok { name := self.name, definitions := definitions })

theorem find?_first {α : Type} (p : α → Bool) (l : List α) (i : Nat) (h : i < l.length)
    (hbefore : ∀ j (hj : j < l.length), j < i → p (l.get ⟨j, hj⟩) = false)
    (hi : p (l.get ⟨i, h⟩) = true) : l.find? p = some (l.get ⟨i, h⟩) := by
  induction l generalizing i with
  | nil => exact absurd h (Nat.not_lt_zero i)
  | cons a tl ih =>
    cases i with
    | zero =>
      have ha : p a = true := hi
      simp [List.find?, ha]
    | succ i =>
      have h0 : p a = false := hbefore 0 (Nat.zero_lt_succ tl.length) (Nat.zero_lt_succ i)
      have htl : i < tl.length := Nat.lt_of_succ_lt_succ h
      have := ih i htl
        (fun j hj hji =>
          hbefore (j + 1) (Nat.succ_lt_succ hj) (Nat.succ_lt_succ hji)) hi
      simp [List.find?, h0]
      exact this

/-- Claim **C1 counterexample**: a file whose first definition matches
`(1,0,0,0)` only through its exact-versions set while the second
definition matches it through a range.  The claim says the later,
range-matching definition is returned; `specific_version` in fact
returns the first definition.  (Its range list is empty, so it cannot
have matched by range.) -/
theorem c1_counterexample :
    DbdFile.specific_version
        ⟨"X.dbd", [],
          [⟨[⟨1, 0, 0, 0⟩], [], [], []⟩,
           ⟨[], [⟨⟨1, 0, 0, 0⟩, ⟨1, 0, 0, 0⟩⟩], [], []⟩]⟩
        ⟨1, 0, 0, 0⟩ =
      some ⟨[⟨1, 0, 0, 0⟩], [], [], []⟩ ∧
    within_range ⟨⟨1, 0, 0, 0⟩, ⟨1, 0, 0, 0⟩⟩ ⟨1, 0, 0, 0⟩ = true ∧
    (⟨[⟨1, 0, 0, 0⟩], [], [], []⟩ : Definition) ≠
      ⟨[], [⟨⟨1, 0, 0, 0⟩, ⟨1, 0, 0, 0⟩⟩], [], []⟩ := by
  refine ⟨?_, by decide, by decide⟩
  rfl

/-- Claim **C1 (amended)**: `specific_version` (same logic on the raw and the
resolved tier) makes a single pass over the definitions in declaration
order and returns the first definition accepted by `compare_versions`
— which tests the definition's ranges first, then its exact-versions
set; it returns `none` iff no definition matches.  (In particular an
earlier definition matching only via its exact-versions set takes
precedence over a later definition matching via a range, contrary to
the original claim.) -/
theorem c1_specific_version_first_match (file : DbdFile) (sfile : SpecificDbdFile)
    (v : Version) :
    (∀ d, file.specific_version v = some d →
      compare_versions v d.version_ranges d.versions = true) ∧
    (file.specific_version v = none ↔
      ∀ d ∈ file.definitions, compare_versions v d.version_ranges d.versions = false) ∧
    (∀ i (h : i < file.definitions.length),
      (∀ j (hj : j < file.definitions.length), j < i →
        compare_versions v (file.definitions.get ⟨j, hj⟩).version_ranges
          (file.definitions.get ⟨j, hj⟩).versions = false) →
      compare_versions v (file.definitions.get ⟨i, h⟩).version_ranges
        (file.definitions.get ⟨i, h⟩).versions = true →
      file.specific_version v = some (file.definitions.get ⟨i, h⟩)) ∧
    (∀ ranges versions, compare_versions v ranges versions =
      (ranges.any (fun b => within_range b v) || versions.any (fun b => b == v))) ∧
    (∀ i (h : i < sfile.definitions.length),
      (∀ j (hj : j < sfile.definitions.length), j < i →
        compare_versions v (sfile.definitions.get ⟨j, hj⟩).version_ranges
          (sfile.definitions.get ⟨j, hj⟩).versions = false) →
      compare_versions v (sfile.definitions.get ⟨i, h⟩).version_ranges
        (sfile.definitions.get ⟨i, h⟩).versions = true →
      sfile.specific_version v = some (sfile.definitions.get ⟨i, h⟩)) := by
  refine ⟨?_, ?_, ?_, fun _ _ => rfl, ?_⟩
  · intro d hd
    unfold DbdFile.specific_version at hd
    have h2 := List.find?_some hd
    simpa using h2
  · unfold DbdFile.specific_version
    rw [List.find?_eq_none]
    constructor
    · intro hall d hd
      have := hall d hd
      simpa using this
    · intro hall d hd
      simp [hall d hd]
  · intro i h hbefore hi
    exact find?_first _ file.definitions i h hbefore hi
  · intro i h hbefore hi
    exact find?_first _ sfile.definitions i h hbefore hi

/-- Witness for the amended C1 at a concrete file: the first (and only)
definition matches `(2,0,0,0)` via its exact-versions set and is
returned. -/
theorem c1_specific_version_first_match_witness :
    DbdFile.specific_version ⟨"Map.dbd", [], [⟨[⟨2, 0, 0, 0⟩], [], [], []⟩]⟩ ⟨2, 0, 0, 0⟩ =
      some ⟨[⟨2, 0, 0, 0⟩], [], [], []⟩ :=
  (c1_specific_version_first_match ⟨"Map.dbd", [], [⟨[⟨2, 0, 0, 0⟩], [], [], []⟩]⟩
      ⟨"Map.dbd", []⟩ ⟨2, 0, 0, 0⟩).2.2.1 0 (by decide)
    (fun j hj hji => absurd hji (Nat.not_lt_zero j)) (by decide)

/-- The eight scalar integer variants of `SpecificType`. -/
def isScalarInt : SpecificType → Bool
  | SpecificType.Int8 | SpecificType.Int16 | SpecificType.Int32 | SpecificType.Int64
  | SpecificType.UInt8 | SpecificType.UInt16 | SpecificType.UInt32
  | SpecificType.UInt64 => true
  | _ => false

theorem resolveBaseType_int_invalid (entry : Entry) (w : Nat)
    (hw : entry.integer_width = some w)
    (h8 : w ≠ 8) (h16 : w ≠ 16) (h32 : w ≠ 32) (h64 : w ≠ 64) :
    resolveBaseType RawType.Int entry =
      Except.error (SpecificConversionError.InvalidIntegerWidth w) := by
  unfold resolveBaseType
  rw [hw]
  cases hu : entry.unsigned <;> split <;> simp_all

theorem resolveBaseType_int_ok_scalar (entry : Entry) (t : SpecificType)
    (h : resolveBaseType RawType.Int entry = Except.ok t) : isScalarInt t = true := by
  unfold resolveBaseType at h
  rcases hw : entry.integer_width with _ | w
  · rw [hw] at h
    simp at h
  · rw [hw] at h
    cases hu : entry.unsigned <;> rw [hu] at h <;> simp only at h <;>
      split at h <;> cases h <;> rfl

theorem applyForeignKey_scalar (t : SpecificType) (key : ForeignKey)
    (h : isScalarInt t = true) :
    applyForeignKey t key = some (Except.ok (SpecificType.ForeignKey t key)) := by
  cases t <;> simp_all [isScalarInt, applyForeignKey]

/-- Claim **C2**: for an entry whose column declares a foreign key: a `Float`
column fails with `FloatAsForeignKey`, a `LocString` column with
`LocStringAsForeignKey`, a `String` column with `StringAsForeignKey`;
an `Int` column whose base type resolves (that is, with a valid width)
succeeds, the resolved type being `ForeignKey` wrapping that scalar
integer type — additionally wrapped in `Array` when the entry declares
an array length (`applyArray`). -/
theorem c2_foreign_key_restriction (columns : List (String × Column)) (column : Column)
    (entry : Entry) (fk : ForeignKey)
    (hcol : mapGet columns entry.name = some column)
    (hfk : column.foreign_key = some fk) :
    (column.ty = RawType.Float →
      entryToSpecific columns entry =
        some (Except.error SpecificConversionError.FloatAsForeignKey)) ∧
    (column.ty = RawType.LocString →
      entryToSpecific columns entry =
        some (Except.error SpecificConversionError.LocStringAsForeignKey)) ∧
    (column.ty = RawType.String →
      entryToSpecific columns entry =
        some (Except.error SpecificConversionError.StringAsForeignKey)) ∧
    (∀ t, column.ty = RawType.Int → resolveBaseType RawType.Int entry = Except.ok t →
      isScalarInt t = true ∧
      entryToSpecific columns entry =
        some (Except.ok (mkSpecificEntry column entry
          (applyArray (SpecificType.ForeignKey t fk) entry.array_size)))) := by
  refine ⟨?_, ?_, ?_, ?_⟩
  · intro hty
    simp [entryToSpecific, hcol, hty, resolveBaseType, hfk, applyForeignKey]
  · intro hty
    simp [entryToSpecific, hcol, hty, resolveBaseType, hfk, applyForeignKey]
  · intro hty
    simp [entryToSpecific, hcol, hty, resolveBaseType, hfk, applyForeignKey]
  · intro t hty hbase
    have hscalar := resolveBaseType_int_ok_scalar entry t hbase
    refine ⟨hscalar, ?_⟩
    simp [entryToSpecific, hcol, hty, hbase, hfk, applyForeignKey_scalar t fk hscalar]

/-- Witness for C2: an `Int` column `ID` with foreign key
`<Map::ID>`, used with width 32, unsigned, array length 3: the entry
resolves to `Array (ForeignKey UInt32 <Map::ID>) 3`. -/
theorem c2_foreign_key_restriction_witness :
    entryToSpecific [("ID", ⟨"ID", RawType.Int, some ⟨"Map", "ID"⟩, true, none⟩)]
        ⟨"ID", none, some 32, some 3, true, false, true, false⟩ =
      some (Except.ok
        (mkSpecificEntry ⟨"ID", RawType.Int, some ⟨"Map", "ID"⟩, true, none⟩
          ⟨"ID", none, some 32, some 3, true, false, true, false⟩
          (applyArray (SpecificType.ForeignKey SpecificType.UInt32 ⟨"Map", "ID"⟩)
            (some 3)))) :=
  ((c2_foreign_key_restriction
      [("ID", ⟨"ID", RawType.Int, some ⟨"Map", "ID"⟩, true, none⟩)]
      ⟨"ID", RawType.Int, some ⟨"Map", "ID"⟩, true, none⟩
      ⟨"ID", none, some 32, some 3, true, false, true, false⟩
      ⟨"Map", "ID"⟩ (by decide) rfl).2.2.2
    SpecificType.UInt32 rfl rfl).2

/-- Claim **C3**: against an `Int` column, a missing integer width fails with
`NoIntegerWidth` and a width outside {8,16,32,64} fails with
`InvalidIntegerWidth` carrying that width; each valid (width, unsigned)
pair resolves to the corresponding scalar integer type, and any valid
width makes the whole entry resolve successfully.  `Float`, `LocString`
and `String` columns map directly to their resolved type for every
entry, with the width and unsigned flag ignored. -/
theorem c3_integer_width_validation (columns : List (String × Column)) (column : Column)
    (entry : Entry) (hcol : mapGet columns entry.name = some column) :
    (column.ty = RawType.Int → entry.integer_width = none →
      entryToSpecific columns entry =
        some (Except.error SpecificConversionError.NoIntegerWidth)) ∧
    (∀ w, column.ty = RawType.Int → entry.integer_width = some w →
      w ≠ 8 → w ≠ 16 → w ≠ 32 → w ≠ 64 →
      entryToSpecific columns entry =
        some (Except.error (SpecificConversionError.InvalidIntegerWidth w))) ∧
    ((entry.integer_width = some 8 → entry.unsigned = false →
        resolveBaseType RawType.Int entry = Except.ok SpecificType.Int8) ∧
     (entry.integer_width = some 16 → entry.unsigned = false →
        resolveBaseType RawType.Int entry = Except.ok SpecificType.Int16) ∧
     (entry.integer_width = some 32 → entry.unsigned = false →
        resolveBaseType RawType.Int entry = Except.ok SpecificType.Int32) ∧
     (entry.integer_width = some 64 → entry.unsigned = false →
        resolveBaseType RawType.Int entry = Except.ok SpecificType.Int64) ∧
     (entry.integer_width = some 8 → entry.unsigned = true →
        resolveBaseType RawType.Int entry = Except.ok SpecificType.UInt8) ∧
     (entry.integer_width = some 16 → entry.unsigned = true →
        resolveBaseType RawType.Int entry = Except.ok SpecificType.UInt16) ∧
     (entry.integer_width = some 32 → entry.unsigned = true →
        resolveBaseType RawType.Int entry = Except.ok SpecificType.UInt32) ∧
     (entry.integer_width = some 64 → entry.unsigned = true →
        resolveBaseType RawType.Int entry = Except.ok SpecificType.UInt64)) ∧
    (∀ e : Entry,
      resolveBaseType RawType.Float e = Except.ok SpecificType.Float ∧
      resolveBaseType RawType.LocString e = Except.ok SpecificType.LocString ∧
      resolveBaseType RawType.String e = Except.ok SpecificType.String) ∧
    (∀ w, column.ty = RawType.Int → entry.integer_width = some w →
      (w = 8 ∨ w = 16 ∨ w = 32 ∨ w = 64) →
      ∃ se, entryToSpecific columns entry = some (Except.ok se)) := by
  refine ⟨?_, ?_, ?_, ?_, ?_⟩
  · intro hty hw
    simp [entryToSpecific, hcol, hty, resolveBaseType, hw]
  · intro w hty hw h8 h16 h32 h64
    simp [entryToSpecific, hcol, hty,
      resolveBaseType_int_invalid entry w hw h8 h16 h32 h64]
  · refine ⟨?_, ?_, ?_, ?_, ?_, ?_, ?_, ?_⟩ <;>
      (intro hw hu; unfold resolveBaseType; rw [hw, hu])
  · intro e
    refine ⟨rfl, rfl, rfl⟩
  · intro w hty hw hvalid
    have hbase : ∃ t, resolveBaseType RawType.Int entry = Except.ok t ∧
        isScalarInt t = true := by
      unfold resolveBaseType
      rw [hw]
      cases hu : entry.unsigned <;> rcases hvalid with h | h | h | h <;> subst h <;>
        exact ⟨_, rfl, rfl⟩
    rcases hbase with ⟨t, hbase, hscalar⟩
    rcases hfk : column.foreign_key with _ | fk
    · exact ⟨mkSpecificEntry column entry (applyArray t entry.array_size),
        by simp [entryToSpecific, hcol, hty, hbase, hfk]⟩
    · exact ⟨mkSpecificEntry column entry
          (applyArray (SpecificType.ForeignKey t fk) entry.array_size),
        by simp [entryToSpecific, hcol, hty, hbase, hfk,
          applyForeignKey_scalar t fk hscalar]⟩

/-- Witness for C3: width 24 on an `Int` column is rejected with
`InvalidIntegerWidth 24`. -/
theorem c3_integer_width_validation_witness :
    entryToSpecific [("Unk0", ⟨"Unk0", RawType.Int, none, true, none⟩)]
        ⟨"Unk0", none, some 24, none, false, false, true, false⟩ =
      some (Except.error (SpecificConversionError.InvalidIntegerWidth 24)) :=
  (c3_integer_width_validation
      [("Unk0", ⟨"Unk0", RawType.Int, none, true, none⟩)]
      ⟨"Unk0", RawType.Int, none, true, none⟩
      ⟨"Unk0", none, some 24, none, false, false, true, false⟩
      (by decide)).2.1 24 rfl rfl
    (by decide) (by decide) (by decide) (by decide)

/-- The claimed invariant on resolved types: every `ForeignKey` node
wraps one of the eight scalar integer types (in particular never an
`Array`, a `Float`, a `String`, a `LocString` or another
`ForeignKey`). -/
def fkInvariant : SpecificType → Bool
  | SpecificType.ForeignKey t _ => isScalarInt t
  | SpecificType.Array t _ => fkInvariant t
  | _ => true

theorem resolveBaseType_shape (colTy : RawType) (entry : Entry) (t : SpecificType)
    (h : resolveBaseType colTy entry = Except.ok t) :
    t = SpecificType.Float ∨ t = SpecificType.LocString ∨ t = SpecificType.String ∨
      isScalarInt t = true := by
  cases colTy with
  | Int => exact Or.inr (Or.inr (Or.inr (resolveBaseType_int_ok_scalar entry t h)))
  | Float =>
    injection h with h2
    exact Or.inl h2.symm
  | LocString =>
    injection h with h2
    exact Or.inr (Or.inl h2.symm)
  | String =>
    injection h with h2
    exact Or.inr (Or.inr (Or.inl h2.symm))

theorem applyForeignKey_of_shape (t : SpecificType) (key : ForeignKey)
    (h : t = SpecificType.Float ∨ t = SpecificType.LocString ∨ t = SpecificType.String ∨
      isScalarInt t = true) : applyForeignKey t key ≠ none := by
  cases t <;> simp_all [applyForeignKey, isScalarInt]

theorem applyForeignKey_ok_scalar (t t2 : SpecificType) (key : ForeignKey)
    (hshape : t = SpecificType.Float ∨ t = SpecificType.LocString ∨
      t = SpecificType.String ∨ isScalarInt t = true)
    (h : applyForeignKey t key = some (Except.ok t2)) :
    t2 = SpecificType.ForeignKey t key ∧ isScalarInt t = true := by
  cases t
  case Float => simp [applyForeignKey] at h
  case LocString => simp [applyForeignKey] at h
  case String => simp [applyForeignKey] at h
  case ForeignKey t3 k3 => simp [isScalarInt] at hshape
  case Array t3 w => simp [isScalarInt] at hshape
  all_goals
    simp [applyForeignKey] at h
  all_goals
    exact ⟨h.symm, rfl⟩

theorem fkInvariant_applyArray (t : SpecificType) (arr : Option Nat) :
    fkInvariant (applyArray t arr) = fkInvariant t := by
  cases arr <;> rfl

theorem isScalarInt_fkInvariant (t : SpecificType) (h : isScalarInt t = true) :
    fkInvariant t = true := by
  cases t <;> simp_all [isScalarInt, fkInvariant]

theorem entryToSpecific_ne_none (columns : List (String × Column)) (entry : Entry) :
    entryToSpecific columns entry ≠ none := by
  intro h
  unfold entryToSpecific at h
  split at h
  · exact Option.noConfusion h
  rename_i column hcol
  split at h
  · exact Option.noConfusion h
  rename_i t hbase
  split at h
  · exact Option.noConfusion h
  rename_i fk hfk
  split at h
  · rename_i hak
    exact applyForeignKey_of_shape t fk
      (resolveBaseType_shape column.ty entry t hbase) hak
  · exact Option.noConfusion h
  · exact Option.noConfusion h

theorem entryToSpecific_ok_fkInvariant (columns : List (String × Column)) (entry : Entry)
    (se : SpecificEntry) (h : entryToSpecific columns entry = some (Except.ok se)) :
    fkInvariant se.ty = true := by
  unfold entryToSpecific at h
  split at h
  · exact Except.noConfusion (Option.some.inj h)
  rename_i column hcol
  split at h
  · exact Except.noConfusion (Option.some.inj h)
  rename_i t hbase
  have hshape := resolveBaseType_shape column.ty entry t hbase
  split at h
  · have hse := Except.ok.inj (Option.some.inj h)
    rw [← hse]
    show fkInvariant (applyArray t entry.array_size) = true
    rw [fkInvariant_applyArray]
    rcases hshape with h2 | h2 | h2 | h2
    · subst h2; rfl
    · subst h2; rfl
    · subst h2; rfl
    · exact isScalarInt_fkInvariant t h2
  rename_i fk hfk
  split at h
  · exact Option.noConfusion h
  · exact Except.noConfusion (Option.some.inj h)
  rename_i t2 hak
  rcases applyForeignKey_ok_scalar t t2 fk hshape hak with ⟨ht2, hscalar⟩
  have hse := Except.ok.inj (Option.some.inj h)
  rw [← hse]
  show fkInvariant (applyArray t2 entry.array_size) = true
  rw [fkInvariant_applyArray, ht2]
  simpa [fkInvariant] using hscalar

theorem resolveEntries_ne_none (columns : List (String × Column)) (es : List Entry) :
    resolveEntries columns es ≠ none := by
  induction es with
  | nil => simp [resolveEntries]
  | cons e rest ih =>
    intro h
    unfold resolveEntries at h
    split at h
    · rename_i he
      exact entryToSpecific_ne_none columns e he
    · exact Option.noConfusion h
    rename_i se he
    split at h
    · rename_i hrest
      exact ih hrest
    · exact Option.noConfusion h
    · exact Option.noConfusion h

theorem resolveEntries_ok_mem_fkInvariant (columns : List (String × Column))
    (es : List Entry) (ses : List SpecificEntry)
    (h : resolveEntries columns es = some (Except.ok ses)) :
    ∀ se ∈ ses, fkInvariant se.ty = true := by
  induction es generalizing ses with
  | nil =>
    simp [resolveEntries] at h
    subst h
    intro se hse
    exact absurd hse (List.not_mem_nil se)
  | cons e rest ih =>
    unfold resolveEntries at h
    split at h
    · exact Option.noConfusion h
    · exact Except.noConfusion (Option.some.inj h)
    rename_i se0 he
    split at h
    · exact Option.noConfusion h
    · exact Except.noConfusion (Option.some.inj h)
    rename_i ses2 hrest
    have hses := Except.ok.inj (Option.some.inj h)
    subst hses
    intro se hse
    rcases List.mem_cons.mp hse with hse | hse
    · rw [hse]
      exact entryToSpecific_ok_fkInvariant columns e se0 he
    · exact ih ses2 hrest se hse

/-- Claim **C9**: the resolver maintains the foreign-key invariant — every
`ForeignKey` node of a resolved type wraps a scalar integer type,
never an `Array`, `Float`, `String`, `LocString` or another
`ForeignKey` — and the `unreachable!` arm of the wrapping match (the
`none` of `entryToSpecific` / `to_specific`) is never executed. -/
theorem c9_resolver_fk_invariant (columns : List (String × Column)) (d : Definition) :
    (∀ entry : Entry, entryToSpecific columns entry ≠ none) ∧
    (∀ (entry : Entry) (se : SpecificEntry),
      entryToSpecific columns entry = some (Except.ok se) → fkInvariant se.ty = true) ∧
    (d.to_specific columns ≠ none) ∧
    (∀ sd : SpecificDefinition, d.to_specific columns = some (Except.ok sd) →
      ∀ se ∈ sd.entries, fkInvariant se.ty = true) := by
  refine ⟨entryToSpecific_ne_none columns, entryToSpecific_ok_fkInvariant columns, ?_, ?_⟩
  · unfold Definition.to_specific
    cases hre : resolveEntries columns d.entries
    · exact absurd hre (resolveEntries_ne_none columns d.entries)
    · rename_i r
      cases r <;> simp
  · intro sd hsd
    unfold Definition.to_specific at hsd
    cases hre : resolveEntries columns d.entries <;> rw [hre] at hsd
    · simp at hsd
    · rename_i r
      cases r with
      | error e2 => simp at hsd
      | ok ses =>
        simp only [Option.some.injEq, Except.ok.injEq] at hsd
        intro se hse
        have hm : se ∈ ses := by
          rw [← hsd] at hse
          exact hse
        exact resolveEntries_ok_mem_fkInvariant columns d.entries ses hre se hm

/-- Witness for C9 at a concrete entry: an array of foreign-keyed
signed 16-bit integers resolves, and its type satisfies the
invariant. -/
theorem c9_resolver_fk_invariant_witness :
    fkInvariant (mkSpecificEntry
        ⟨"ParentMapID", RawType.Int, some ⟨"Map", "ID"⟩, true, none⟩
        ⟨"ParentMapID", none, some 16, some 2, false, false, true, false⟩
        (applyArray (SpecificType.ForeignKey SpecificType.Int16 ⟨"Map", "ID"⟩)
          (some 2))).ty = true :=
  (c9_resolver_fk_invariant
      [("ParentMapID", ⟨"ParentMapID", RawType.Int, some ⟨"Map", "ID"⟩, true, none⟩)]
      ⟨[], [], [], []⟩).2.1
    ⟨"ParentMapID", none, some 16, some 2, false, false, true, false⟩
    (mkSpecificEntry ⟨"ParentMapID", RawType.Int, some ⟨"Map", "ID"⟩, true, none⟩
      ⟨"ParentMapID", none, some 16, some 2, false, false, true, false⟩
      (applyArray (SpecificType.ForeignKey SpecificType.Int16 ⟨"Map", "ID"⟩) (some 2)))
    rfl

theorem resolveEntries_ok_iff (columns : List (String × Column)) (es : List Entry) :
    (∃ ses, resolveEntries columns es = some (Except.ok ses)) ↔
      ∀ e ∈ es, ∃ se, entryToSpecific columns e = some (Except.ok se) := by
  induction es with
  | nil => simp [resolveEntries]
  | cons e rest ih =>
    constructor
    · rintro ⟨ses, hses⟩
      unfold resolveEntries at hses
      split at hses
      · exact Option.noConfusion hses
      · exact Except.noConfusion (Option.some.inj hses)
      rename_i se0 he
      split at hses
      · exact Option.noConfusion hses
      · exact Except.noConfusion (Option.some.inj hses)
      rename_i ses2 hrest
      intro e2 he2
      rcases List.mem_cons.mp he2 with he2 | he2
      · rw [he2]
        exact ⟨se0, he⟩
      · exact (ih.mp ⟨ses2, hrest⟩) e2 he2
    · intro hall
      rcases hall e (List.mem_cons_self e rest) with ⟨se, hse⟩
      rcases ih.mpr (fun e2 he2 => hall e2 (List.mem_cons_of_mem e he2)) with ⟨ses, hses⟩
      exact ⟨se :: ses, by simp [resolveEntries, hse, hses]⟩

theorem resolveEntries_first_error (columns : List (String × Column))
    (err : SpecificConversionError) :
    ∀ (es1 : List Entry) (e : Entry) (es2 : List Entry),
      (∀ e2 ∈ es1, ∃ se, entryToSpecific columns e2 = some (Except.ok se)) →
      entryToSpecific columns e = some (Except.error err) →
      resolveEntries columns (es1 ++ e :: es2) = some (Except.error err) := by
  intro es1
  induction es1 with
  | nil =>
    intro e es2 _ he
    simp [resolveEntries, he]
  | cons e1 rest ih =>
    intro e es2 hok he
    rcases hok e1 (List.mem_cons_self e1 rest) with ⟨se1, hse1⟩
    have hrec := ih e es2 (fun e2 h2 => hok e2 (List.mem_cons_of_mem e1 h2)) he
    simp [resolveEntries, hse1, hrec]

theorem to_specific_ok_iff (d : Definition) (columns : List (String × Column)) :
    (∃ sd, d.to_specific columns = some (Except.ok sd)) ↔
      (∃ ses, resolveEntries columns d.entries = some (Except.ok ses)) := by
  constructor
  · rintro ⟨sd, hsd⟩
    unfold Definition.to_specific at hsd
    split at hsd
    · exact Option.noConfusion hsd
    · exact Except.noConfusion (Option.some.inj hsd)
    rename_i ses hses
    exact ⟨ses, hses⟩
  · rintro ⟨ses, hses⟩
    exact ⟨⟨d.versions, d.version_ranges, d.layouts, ses⟩,
      by simp [Definition.to_specific, hses]⟩

theorem to_specific_error_iff (d : Definition) (columns : List (String × Column))
    (err : SpecificConversionError) :
    d.to_specific columns = some (Except.error err) ↔
      resolveEntries columns d.entries = some (Except.error err) := by
  constructor
  · intro h
    unfold Definition.to_specific at h
    split at h
    · exact Option.noConfusion h
    · rename_i e2 he2
      rw [Except.error.inj (Option.some.inj h)] at he2
      exact he2
    · exact Except.noConfusion (Option.some.inj h)
  · intro h
    simp [Definition.to_specific, h]

theorem resolveDefinitions_ok_iff (columns : List (String × Column))
    (defs : List Definition) :
    (∃ sds, resolveDefinitions columns defs = some (Except.ok sds)) ↔
      ∀ d ∈ defs, ∃ sd, d.to_specific columns = some (Except.ok sd) := by
  induction defs with
  | nil => simp [resolveDefinitions]
  | cons d rest ih =>
    constructor
    · rintro ⟨sds, hsds⟩
      unfold resolveDefinitions at hsds
      split at hsds
      · exact Option.noConfusion hsds
      · exact Except.noConfusion (Option.some.inj hsds)
      rename_i sd0 hd
      split at hsds
      · exact Option.noConfusion hsds
      · exact Except.noConfusion (Option.some.inj hsds)
      rename_i sds2 hrest
      intro d2 hd2
      rcases List.mem_cons.mp hd2 with hd2 | hd2
      · rw [hd2]
        exact ⟨sd0, hd⟩
      · exact (ih.mp ⟨sds2, hrest⟩) d2 hd2
    · intro hall
      rcases hall d (List.mem_cons_self d rest) with ⟨sd, hsd⟩
      rcases ih.mpr (fun d2 hd2 => hall d2 (List.mem_cons_of_mem d hd2)) with ⟨sds, hsds⟩
      exact ⟨sd :: sds, by simp [resolveDefinitions, hsd, hsds]⟩

theorem resolveDefinitions_first_error (columns : List (String × Column))
    (err : SpecificConversionError) :
    ∀ (defs1 : List Definition) (d : Definition) (defs2 : List Definition),
      (∀ d2 ∈ defs1, ∃ sd, d2.to_specific columns = some (Except.ok sd)) →
      d.to_specific columns = some (Except.error err) →
      resolveDefinitions columns (defs1 ++ d :: defs2) = some (Except.error err) := by
  intro defs1
  induction defs1 with
  | nil =>
    intro d defs2 _ hd
    simp [resolveDefinitions, hd]
  | cons d1 rest ih =>
    intro d defs2 hok hd
    rcases hok d1 (List.mem_cons_self d1 rest) with ⟨sd1, hsd1⟩
    have hrec := ih d defs2 (fun d2 h2 => hok d2 (List.mem_cons_of_mem d1 h2)) hd
    simp [resolveDefinitions, hsd1, hrec]

theorem into_specific_ok_iff (file : DbdFile) :
    (∃ sf, file.into_specific = some (Except.ok sf)) ↔
      (∃ sds, resolveDefinitions file.columns file.definitions =
        some (Except.ok sds)) := by
  constructor
  · rintro ⟨sf, hsf⟩
    unfold DbdFile.into_specific at hsf
    split at hsf
    · exact Option.noConfusion hsf
    · exact Except.noConfusion (Option.some.inj hsf)
    rename_i sds hsds
    exact ⟨sds, hsds⟩
  · rintro ⟨sds, hsds⟩
    exact ⟨⟨file.name, sds⟩, by simp [DbdFile.into_specific, hsds]⟩

theorem into_specific_error_iff (file : DbdFile) (err : SpecificConversionError) :
    file.into_specific = some (Except.error err) ↔
      resolveDefinitions file.columns file.definitions = some (Except.error err) := by
  constructor
  · intro h
    unfold DbdFile.into_specific at h
    split at h
    · exact Option.noConfusion h
    · rename_i e2 he2
      rw [Except.error.inj (Option.some.inj h)] at he2
      exact he2
    · exact Except.noConfusion (Option.some.inj h)
  · intro h
    simp [DbdFile.into_specific, h]

/-- Claim **C4**: resolution is fail-fast and atomic.  `into_specific`
yields a resolved file iff every definition resolves, a definition
resolves iff every one of its entries resolves, and when all
definitions (resp. entries) before some failing one succeed, the
result of the whole conversion is exactly that first error — no
partial result.  (The error type, `SpecificConversionError`, carries
no line/column location by construction.) -/
theorem c4_fail_fast_atomic (file : DbdFile) :
    ((∃ sf, file.into_specific = some (Except.ok sf)) ↔
      ∀ d ∈ file.definitions, ∃ sd, d.to_specific file.columns = some (Except.ok sd)) ∧
    (∀ d : Definition, (∃ sd, d.to_specific file.columns = some (Except.ok sd)) ↔
      ∀ e ∈ d.entries, ∃ se, entryToSpecific file.columns e = some (Except.ok se)) ∧
    (∀ (defs1 : List Definition) (d : Definition) (defs2 : List Definition)
        (err : SpecificConversionError),
      file.definitions = defs1 ++ d :: defs2 →
      (∀ d2 ∈ defs1, ∃ sd, d2.to_specific file.columns = some (Except.ok sd)) →
      d.to_specific file.columns = some (Except.error err) →
      file.into_specific = some (Except.error err)) ∧
    (∀ (d : Definition) (es1 : List Entry) (e : Entry) (es2 : List Entry)
        (err : SpecificConversionError),
      d.entries = es1 ++ e :: es2 →
      (∀ e2 ∈ es1, ∃ se, entryToSpecific file.columns e2 = some (Except.ok se)) →
      entryToSpecific file.columns e = some (Except.error err) →
      d.to_specific file.columns = some (Except.error err)) := by
  refine ⟨?_, ?_, ?_, ?_⟩
  · rw [into_specific_ok_iff]
    exact resolveDefinitions_ok_iff file.columns file.definitions
  · intro d
    rw [to_specific_ok_iff]
    exact resolveEntries_ok_iff file.columns d.entries
  · intro defs1 d defs2 err hdefs hok hd
    rw [into_specific_error_iff, hdefs]
    exact resolveDefinitions_first_error file.columns err defs1 d defs2 hok hd
  · intro d es1 e es2 err hes hok he
    rw [to_specific_error_iff, hes]
    exact resolveEntries_first_error file.columns err es1 e es2 hok he

/-- Witness for C4: a file whose single definition's single entry
lacks an integer width converts to exactly that first error. -/
theorem c4_fail_fast_atomic_witness :
    DbdFile.into_specific
        ⟨"W.dbd", [("A", ⟨"A", RawType.Int, none, true, none⟩)],
          [⟨[], [], [], [⟨"A", none, none, none, false, false, true, false⟩]⟩]⟩ =
      some (Except.error SpecificConversionError.NoIntegerWidth) :=
  (c4_fail_fast_atomic
      ⟨"W.dbd", [("A", ⟨"A", RawType.Int, none, true, none⟩)],
        [⟨[], [], [], [⟨"A", none, none, none, false, false, true, false⟩]⟩]⟩).2.2.1
    [] ⟨[], [], [], [⟨"A", none, none, none, false, false, true, false⟩]⟩ []
    SpecificConversionError.NoIntegerWidth rfl
    (fun d2 h2 => absurd h2 (List.not_mem_nil d2)) rfl

/-- Model of `DbdErrorReason` from `src/error.rs`. -/
inductive DbdErrorReason where
  | NoSpaceInColumn
  | NoDoubleColonInForeignKey
  | NoClosingForeignKeyAngleBracket
  | NoClosingAnnotationDollarSign
  | NoClosingIntegerSizeAngleBracket
  | InvalidIntegerSizeNumber (s : String)
  | NoClosingArraySizeSquareBracket
  | InvalidArraySizeNumber (s : String)
  | InvalidLayout (s : String)
  | InvalidBuild (s : String)
  | InvalidType (s : String)
deriving DecidableEq, Repr

/-- Model of `ParseError` from `src/error.rs`. -/
structure ParseError where
  column : Nat
  line : Nat
  reason : DbdErrorReason
deriving DecidableEq, Repr

/-- Rust `str::split_once('\n')` on the byte-list model of `&str`:
split at the first newline byte (10). -/
def splitOnceNl : List Nat → Option (List Nat × List Nat)
  | [] => none
  | b :: rest =>
    if b = 10 then some ([], rest)
    else
      match splitOnceNl rest with
      | none => none
      | some (x, y) => some (b :: x, y)

theorem splitOnceNl_snd_length (s : List Nat) (a b : List Nat)
    (h : splitOnceNl s = some (a, b)) : b.length < s.length := by
  induction s generalizing a b with
  | nil => exact Option.noConfusion h
  | cons c rest ih =>
    unfold splitOnceNl at h
    split at h
    · have h2 := Prod.mk.inj (Option.some.inj h)
      rw [← h2.2]
      exact Nat.lt_succ_of_le (Nat.le_refl rest.length)
    · split at h
      · exact Option.noConfusion h
      · rename_i x y hxy
        have h2 := Prod.mk.inj (Option.some.inj h)
        rw [← h2.2]
        exact Nat.lt_succ_of_lt (ih x y hxy)

/-- The `while let Some((_, b)) = contents.split_once` loop shared by
`line_and_column_to_str` (`src/lib.rs`) and `ParseError::start_str_at`
(`src/error.rs`), with the loop counter `i` explicit.  The outer
`Option` layer models a panic: `none` is the Rust panic of the byte
slice `&b[column..]` when `column` is out of range. -/
def lineLoop (s : List Nat) (line i column : Nat) : Option (Option (List Nat)) :=
  match h : splitOnceNl s with
  | none => some none
  | some (_, b) =>
    if line = i + 1 then
      if column ≤ b.length then some (some (List.drop column b)) else none
    else
      lineLoop b line (i + 1) column
termination_by s.length
decreasing_by
  exact splitOnceNl_snd_length s _ b h

/-- Model of `line_and_column_to_str` from `src/lib.rs` on the byte-list model:
the `line == 0` early return indexes directly into the full text, the
loop otherwise.  Outer `none` models the Rust panic of
`&contents[column..]`. -/
def line_and_column_to_str (contents : List Nat) (line column : Nat) :
    Option (Option (List Nat)) :=
  if line = 0 then
    if column ≤ contents.length then some (some (List.drop column contents)) else none
  else
    lineLoop contents line 0 column

/-- Model of `ParseError::start_str_at` from `src/error.rs`: the same code as
`line_and_column_to_str`, reading line and column from the error. -/
def ParseError.start_str_at (self : ParseError) (contents : List Nat) :
    Option (Option (List Nat)) :=
  if self.line = 0 then
    if self.column ≤ contents.length then some (some (List.drop self.column contents))
    else none
  else
    lineLoop contents self.line 0 self.column

/-- Spec-side description of the loop's skipping: the text remaining
after skipping `n` newline-delimited segments, `none` when fewer than
`n` newlines exist. -/
def dropSegments : Nat → List Nat → Option (List Nat)
  | 0, s => some s
  | n + 1, s =>
    match splitOnceNl s with
    | none => none
    | some (_, b) => dropSegments n b

/-- Number of newline bytes in the text. -/
def countNl (s : List Nat) : Nat := s.count 10

theorem splitOnceNl_none_iff (s : List Nat) : splitOnceNl s = none ↔ countNl s = 0 := by
  induction s with
  | nil => simp [splitOnceNl, countNl]
  | cons c rest ih =>
    unfold splitOnceNl countNl
    by_cases hc : c = 10
    · subst hc
      simp [countNl, List.count_cons]
    · rw [if_neg hc]
      cases hsp : splitOnceNl rest with
      | none =>
        simp only [List.count_cons]
        have hr := (ih.mp hsp)
        unfold countNl at hr
        simp [hr, hc]
      | some p =>
        rcases p with ⟨x, y⟩
        simp only [List.count_cons]
        constructor
        · intro h
          exact absurd h (by simp)
        · intro h
          simp [hc] at h
          have h3 := ih.mpr h
          rw [h3] at hsp
          exact Option.noConfusion hsp

theorem splitOnceNl_some_count (s : List Nat) (a b : List Nat)
    (h : splitOnceNl s = some (a, b)) : countNl s = countNl b + 1 := by
  induction s generalizing a b with
  | nil => exact Option.noConfusion h
  | cons c rest ih =>
    unfold splitOnceNl at h
    split at h
    · rename_i hc
      have h2 := Prod.mk.inj (Option.some.inj h)
      rw [← h2.2]
      unfold countNl
      rw [hc]
      simp [List.count_cons]
    · rename_i hc
      split at h
      · exact Option.noConfusion h
      · rename_i x y hxy
        have h2 := Prod.mk.inj (Option.some.inj h)
        rw [← h2.2]
        have := ih x y hxy
        unfold countNl at this ⊢
        simp [List.count_cons, hc, this]

theorem dropSegments_none_iff (n : Nat) (s : List Nat) :
    dropSegments n s = none ↔ countNl s < n := by
  induction n generalizing s with
  | zero => simp [dropSegments]
  | succ n ih =>
    unfold dropSegments
    cases hsp : splitOnceNl s with
    | none =>
      have h0 := (splitOnceNl_none_iff s).mp hsp
      simp [h0]
    | some p =>
      rcases p with ⟨a, b⟩
      have hcount := splitOnceNl_some_count s a b hsp
      simp only [ih b, hcount]
      omega

theorem dropSegments_succ (n : Nat) (s : List Nat) :
    dropSegments (n + 1) s =
      match splitOnceNl s with
      | none => none
      | some (_, b) => dropSegments n b := rfl

theorem dropSegments_succ_of_split (n : Nat) (s a b : List Nat)
    (h : splitOnceNl s = some (a, b)) :
    dropSegments (n + 1) s = dropSegments n b := by
  rw [dropSegments_succ, h]

theorem dropSegments_succ_of_none (n : Nat) (s : List Nat)
    (h : splitOnceNl s = none) : dropSegments (n + 1) s = none := by
  rw [dropSegments_succ, h]

theorem lineLoop_eq (n : Nat) :
    ∀ (s : List Nat) (i column : Nat),
      lineLoop s (i + n + 1) i column =
        match dropSegments (n + 1) s with
        | none => some none
        | some b =>
          if column ≤ b.length then some (some (List.drop column b)) else none := by
  induction n with
  | zero =>
    intro s i column
    rw [lineLoop]
    cases hsp : splitOnceNl s with
    | none =>
      rw [dropSegments_succ_of_none 0 s hsp]
    | some p =>
      rcases p with ⟨a, b⟩
      rw [dropSegments_succ_of_split 0 s a b hsp]
      simp [dropSegments]
  | succ n ih =>
    intro s i column
    rw [lineLoop]
    cases hsp : splitOnceNl s with
    | none =>
      rw [dropSegments_succ_of_none (n + 1) s hsp]
    | some p =>
      rcases p with ⟨a, b⟩
      rw [dropSegments_succ_of_split (n + 1) s a b hsp]
      have hne : ¬ (i + (n + 1) + 1 = i + 1) := by omega
      simp only [hne, if_false]
      have harith : i + (n + 1) + 1 = (i + 1) + n + 1 := by omega
      rw [harith]
      exact ih b (i + 1) column

/-- Claim **C6**: the location utility indexes directly into the full text
for line 0; for `line = n >= 1` with at least `n` newlines in the text
it returns the suffix starting `column` bytes into the remainder after
skipping `n` newline-delimited segments (`dropSegments`); with fewer
than `n` newlines it returns `None`; and `ParseError::start_str_at` is
the same function. -/
theorem c6_location_utility (contents : List Nat) (line column : Nat) :
    (line = 0 → column ≤ contents.length →
      line_and_column_to_str contents line column =
        some (some (List.drop column contents))) ∧
    (∀ b : List Nat, 1 ≤ line → dropSegments line contents = some b →
      column ≤ b.length →
      line_and_column_to_str contents line column = some (some (List.drop column b))) ∧
    (1 ≤ line → line ≤ countNl contents →
      ∃ b, dropSegments line contents = some b) ∧
    (1 ≤ line → countNl contents < line →
      line_and_column_to_str contents line column = some none) ∧
    (∀ e : ParseError, ParseError.start_str_at e contents =
      line_and_column_to_str contents e.line e.column) := by
  refine ⟨?_, ?_, ?_, ?_, fun e => rfl⟩
  · intro h0 hcol
    simp [line_and_column_to_str, h0, hcol]
  · intro b h1 hdrop hcol
    unfold line_and_column_to_str
    rw [if_neg (by omega)]
    have heq := lineLoop_eq (line - 1) contents 0 column
    have h02 : (0 : Nat) + (line - 1) + 1 = line := by omega
    have h03 : line - 1 + 1 = line := by omega
    rw [h02, h03] at heq
    rw [heq, hdrop]
    simp [hcol]
  · intro h1 hcount
    cases hdrop : dropSegments line contents with
    | none =>
      have := (dropSegments_none_iff line contents).mp hdrop
      omega
    | some b => exact ⟨b, rfl⟩
  · intro h1 hcount
    have hdrop := (dropSegments_none_iff line contents).mpr hcount
    unfold line_and_column_to_str
    rw [if_neg (by omega)]
    have heq := lineLoop_eq (line - 1) contents 0 column
    have h02 : (0 : Nat) + (line - 1) + 1 = line := by omega
    have h03 : line - 1 + 1 = line := by omega
    rw [h02, h03] at heq
    rw [heq, hdrop]

/-- Witness for C6: in the text "A\nBC", line 1 column 1 recovers
"C". -/
theorem c6_location_utility_witness :
    line_and_column_to_str [65, 10, 66, 67] 1 1 = some (some [67]) :=
  (c6_location_utility [65, 10, 66, 67] 1 1).2.1 [66, 67] (by decide) (by decide)
    (by decide)

/-- Claim **C8**: the location utility is not total: with `line = 0` and
`column` past the end of the text, or `column` past the end of the
remainder selected by the newline skipping, the byte slice panics
(modelled as the outer `none`); `None` (`some none`) is only ever
returned when the text has fewer newlines than `line`, never for an
out-of-range column; `start_str_at` behaves identically. -/
theorem c8_location_utility_panics :
    (line_and_column_to_str [] 0 1 = none) ∧
    (∀ (contents : List Nat) (column : Nat), contents.length < column →
      line_and_column_to_str contents 0 column = none) ∧
    (∀ (contents : List Nat) (line column : Nat) (b : List Nat), 1 ≤ line →
      dropSegments line contents = some b → b.length < column →
      line_and_column_to_str contents line column = none) ∧
    (∀ (contents : List Nat) (line column : Nat),
      line_and_column_to_str contents line column = some none →
      countNl contents < line) ∧
    (∀ (e : ParseError) (contents : List Nat),
      ParseError.start_str_at e contents = none ↔
        line_and_column_to_str contents e.line e.column = none) := by
  refine ⟨by decide, ?_, ?_, ?_, fun e contents => Iff.rfl⟩
  · intro contents column hlen
    unfold line_and_column_to_str
    rw [if_pos rfl, if_neg (by omega)]
  · intro contents line column b h1 hdrop hcol
    unfold line_and_column_to_str
    rw [if_neg (by omega)]
    have heq := lineLoop_eq (line - 1) contents 0 column
    have h02 : (0 : Nat) + (line - 1) + 1 = line := by omega
    have h03 : line - 1 + 1 = line := by omega
    rw [h02, h03] at heq
    rw [heq, hdrop]
    have hc2 : ¬ column ≤ b.length := by omega
    simp [hc2]
  · intro contents line column h
    by_cases h0 : line = 0
    · subst h0
      unfold line_and_column_to_str at h
      rw [if_pos rfl] at h
      by_cases hcol : column ≤ contents.length
      · rw [if_pos hcol] at h
        exact absurd (Option.some.inj h) (by simp)
      · rw [if_neg hcol] at h
        exact Option.noConfusion h
    · cases hdrop : dropSegments line contents with
      | none => exact (dropSegments_none_iff line contents).mp hdrop
      | some b =>
        unfold line_and_column_to_str at h
        rw [if_neg h0] at h
        have heq := lineLoop_eq (line - 1) contents 0 column
        have h02 : (0 : Nat) + (line - 1) + 1 = line := by omega
        have h03 : line - 1 + 1 = line := by omega
        rw [h02, h03] at heq
        rw [heq, hdrop] at h
        by_cases hcol : column ≤ b.length
        · simp [hcol] at h
        · simp [hcol] at h

/-- Witness for C8: indexing column 2 of the one-byte text "A" at
line 0 panics (outer `none`). -/
theorem c8_location_utility_panics_witness :
    line_and_column_to_str [65] 0 2 = none :=
  c8_location_utility_panics.2.1 [65] 2 (by decide)

/-- The `Display` implementation for `Layout` from `src/types.rs`:
`std::fmt::Display::fmt(&self.inner, f)`, i.e. it delegates to the
`u32` `Display`, which renders the value in decimal.  `Nat.repr` is
the decimal rendering of the modelled `u32`. -/
def layoutDisplay (l : Layout) : String := Nat.repr l.inner

/-- Lower-case hexadecimal rendering of a number — what the layout
token looks like in the `.dbd` source text. -/
def hexDisplay (n : Nat) : String := String.mk (Nat.toDigits 16 n)

/-- Claim **C10**: `Layout`'s `Display` formats the inner 32-bit value in
decimal, identically to displaying the number directly, not in the
hexadecimal form the layout was parsed from: `0xdeadbeef` prints as
"3735928559", not "deadbeef". -/
theorem c10_layout_display_decimal :
    (∀ l : Layout, layoutDisplay l = Nat.repr l.inner) ∧
    layoutDisplay ⟨3735928559⟩ = "3735928559" ∧
    hexDisplay 3735928559 = "deadbeef" ∧
    layoutDisplay ⟨3735928559⟩ ≠ hexDisplay 3735928559 := by
  refine ⟨fun l => rfl, ?_, ?_, ?_⟩ <;> decide

end WowDbd
